import Mathlib

/-!
Verification of the `vm` package of cockroachlabs/roachprod (`vm/vm.go`).

Shallow embedding conventions:
* Go strings are Lean `String`; `time.Time` / `time.Duration` are `Nat`.
* Go errors are the inductive `GoError`: `GoError.msg s` models
  `errors.New` / `errors.Errorf` producing message `s`, and
  `GoError.wrap cause ctx` models `errors.Wrapf(cause, ctx)` (the original
  error is preserved as the cause of the wrapper).
* The process-wide registry `Providers` (a Go `map[string]Provider`) is an
  association list `List (String × P)` with unique keys; Go map iteration
  order is unspecified, and the association-list order is our canonical
  iteration order.  The dispatch functions are polymorphic in the provider
  type `P`, mirroring the fact that they treat the `Provider` interface
  opaquely.
* Side-effecting Go closures (`action` callbacks) become state-passing
  functions `… → σ → σ × Option GoError`, where `none` is a `nil` error.
* `errgroup.Group` concurrency is serialized in iteration order: every task
  runs to completion (`Wait` joins them all) and the first non-`nil` error
  in that order is returned.  The claims under study involve at most one
  failing task, for which this determinization agrees with every schedule.
* `log.Fatalf` (process termination) is modelled by returning `none` from
  an `Option`-valued function.
-/

namespace Vm

/-- Model of Go `error` values as produced by the `errors` package:
`msg s` is a leaf error with message `s` (`errors.New` / `errors.Errorf`),
`wrap cause ctx` is `errors.Wrapf(cause, ctx)`, keeping the original error
as the cause. -/
inductive GoError where
  | msg (s : String)
  | wrap (cause : GoError) (context : String)
deriving DecidableEq, Repr

/-- Model of `config.Local` from the `config` package of this repository
(not part of `vm/vm.go`).  Modelled from the spec: "a special sentinel zone
value denotes local machine"; the concrete string is not fixed by the spec,
the claims treat it verbatim. -/
def config.Local : String := "local"

/-- A VM is an abstract representation of a specific machine instance
(struct `VM` in `vm/vm.go`). -/
structure VM where
  Name : String
  CreatedAt : Nat
  Errors : List GoError
  Lifetime : Nat
  DNS : String
  Provider : String
  PrivateIP : String
  PublicIP : String
  Zone : String
deriving DecidableEq, Repr

/-- Error values for `VM.Errors` (`ErrBadNetwork`, `ErrInvalidName`,
`ErrNoExpiration` in the source). -/
def ErrBadNetwork : GoError := .msg "could not determine network information"

def ErrInvalidName : GoError := .msg "invalid VM name"

def ErrNoExpiration : GoError := .msg "could not determine expiration"

/-- `[a-z]` of `regionRE`: a lowercase ASCII letter. -/
def isLowerAscii (c : Char) : Bool := 'a' ≤ c && c ≤ 'z'

/-- Semantics of `regionRE.FindStringSubmatch` for the fixed pattern
`(.*[^-])-?[a-z]$`, computed on the reversed character list of the zone;
returns the reversed capture of group 1 on success.

Because the pattern is anchored at the end, the character consumed by
`[^-]` sits either directly before the final letter (when it is not `-`,
the greedy preference) or one position earlier with `-?` consuming a
literal `-`.  Go's `.` does not match a newline, so the `.*` span is the
longest newline-free run extending leftward from the `[^-]` character;
leftmost-first matching makes that run maximal, which on the reversed list
is a `takeWhile`. -/
def regionREFindRev : List Char → Option (List Char)
  | [] => none
  | l0 :: t =>
    if isLowerAscii l0 then
      match t with
      | [] => none
      | c :: w =>
        if c = '-' then
          match w with
          | [] => none
          | c2 :: w2 =>
            if c2 = '-' then none
            else some (c2 :: w2.takeWhile (fun x => x ≠ '\n'))
        else some (c :: w.takeWhile (fun x => x ≠ '\n'))
    else none

/-- Group 1 of `regionRE.FindStringSubmatch(zone)`, or `none` when the
regexp does not match (in which case `FindStringSubmatch` returns `nil`
and `len(match) == 2` fails). -/
def regionREFind (zone : String) : Option String :=
  (regionREFindRev zone.data.reverse).map (fun g => String.mk g.reverse)

/-- `func (vm *VM) IsLocal() bool`: true if the VM represents the local
host. -/
def VM.IsLocal (v : VM) : Bool := v.Zone == config.Local

/-- `func (vm *VM) Locality() string`.  `none` models the `log.Fatalf`
branch ("unable to parse region from zone"), which terminates the process
and returns nothing. -/
def VM.Locality (v : VM) : Option String :=
  if v.IsLocal then
    some ("region=" ++ v.Zone ++ ",zone=" ++ v.Zone)
  else
    match regionREFind v.Zone with
    | some region => some ("region=" ++ region ++ ",zone=" ++ v.Zone)
    | none => none

/-- Extract all `VM.Name` entries from the List (`List.Names`). -/
def Names (vl : List VM) : List String := vl.map VM.Name

/-- Extract all `VM.Zone` entries from the List (`List.Zones`). -/
def Zones (vl : List VM) : List String := vl.map VM.Zone

/-- Convenience constructor for concrete test VMs: only the fields the
verified operations read are distinguished. -/
def vmOf (name provider zone : String) : VM :=
  { Name := name, CreatedAt := 0, Errors := [], Lifetime := 0, DNS := "",
    Provider := provider, PrivateIP := "", PublicIP := "", Zone := zone }

/-- Lookup in a Go map modelled as an association list
(`Providers[named]`, returning `none` for a missing key). -/
def lookupP {P : Type} : List (String × P) → String → Option P
  | [], _ => none
  | kv :: rest, named => if kv.1 = named then some kv.2 else lookupP rest named

/-- `func AllProviderNames() []string`: the names of all known vm
Providers, in the canonical (association-list) iteration order of the
`Providers` map. -/
def AllProviderNames {P : Type} (Providers : List (String × P)) : List String :=
  Providers.map Prod.fst

/-- `func ForProvider(named string, action func(Provider) error) error`:
resolve the Provider with the given name and execute the action; an action
error is wrapped by `errors.Wrapf(err, "in provider: %s", named)`.  The
callback's captured mutable state is threaded explicitly as `σ`. -/
def ForProvider {P σ : Type} (Providers : List (String × P)) (named : String)
    (action : P → σ → σ × Option GoError) (s : σ) : σ × Option GoError :=
  match lookupP Providers named with
  | none => (s, some (.msg ("unknown vm provider: " ++ named)))
  | some p =>
    let r := action p s
    match r.2 with
    | some e => (r.1, some (.wrap e ("in provider: " ++ named)))
    | none => (r.1, none)

/-- `func ProvidersSequential(named []string, action func(Provider) error) error`:
sequentially executes actions for each named Provider, stopping at the
first error. -/
def ProvidersSequential {P σ : Type} (Providers : List (String × P)) (named : List String)
    (action : P → σ → σ × Option GoError) (s : σ) : σ × Option GoError :=
  match named with
  | [] => (s, none)
  | n :: rest =>
    let r := ForProvider Providers n action s
    match r.2 with
    | some e => (r.1, some e)
    | none => ProvidersSequential Providers rest action r.1

/-- `errgroup.Group.Wait` error aggregation: the first non-`nil` error in
the canonical task order wins. -/
def firstSome (a b : Option GoError) : Option GoError :=
  match a with
  | some e => some e
  | none => b

/-- `func ProvidersParallel(named []string, action func(Provider) error) error`:
one `errgroup` task per name, each delegating to `ForProvider`; all tasks
run to completion (serialized here in `named` order) and the first
non-`nil` error is returned. -/
def ProvidersParallel {P σ : Type} (Providers : List (String × P)) (named : List String)
    (action : P → σ → σ × Option GoError) (s : σ) : σ × Option GoError :=
  match named with
  | [] => (s, none)
  | n :: rest =>
    let r := ForProvider Providers n action s
    let r2 := ProvidersParallel Providers rest action r.1
    (r2.1, firstSome r.2 r2.2)

/-- One step of `FanOut`'s collating loop
(`m[vm.Provider] = append(m[vm.Provider], vm)`): append `v` to its
provider's group, creating the group on first occurrence.  The association
list keeps groups in first-occurrence order, a canonical representation of
the unordered Go map `m`. -/
def addVM (groups : List (String × List VM)) (v : VM) : List (String × List VM) :=
  match groups with
  | [] => [(v.Provider, [v])]
  | g :: rest =>
    if g.1 = v.Provider then (g.1, g.2 ++ [v]) :: rest
    else g :: addVM rest v

/-- The per-provider partition `m` built by the first loop of `FanOut`. -/
def collate (list : List VM) : List (String × List VM) :=
  list.foldl addVM []

/-- The `errgroup` phase of `FanOut`: one task per collated group, each
resolving its provider in the registry (error
`unknown provider name: <name>` when absent) and otherwise invoking the
action with the provider and its sub-list; all tasks run (serialized in
group order) and the first non-`nil` error is returned by `g.Wait()`. -/
def FanOutGroups {P σ : Type} (Providers : List (String × P)) (groups : List (String × List VM))
    (action : P → List VM → σ → σ × Option GoError) (s : σ) : σ × Option GoError :=
  match groups with
  | [] => (s, none)
  | g :: rest =>
    let r := match lookupP Providers g.1 with
      | none => (s, some (GoError.msg ("unknown provider name: " ++ g.1)))
      | some p => action p g.2 s
    let r2 := FanOutGroups Providers rest action r.1
    (r2.1, firstSome r.2 r2.2)

/-- `func FanOut(list List, action func(Provider, List) error) error`:
collates a collection of VMs by their provider and invokes the callbacks
(in parallel in Go; serialized here, see `FanOutGroups`). -/
def FanOut {P σ : Type} (Providers : List (String × P)) (list : List VM)
    (action : P → List VM → σ → σ × Option GoError) (s : σ) : σ × Option GoError :=
  FanOutGroups Providers (collate list) action s

/-- Ghost instrumentation: run the same action while recording each
invocation (the provider object and the sub-list it received) in a trace
component of the state.  The trace never influences control flow. -/
def withTrace {P σ : Type} (f : P → List VM → σ → σ × Option GoError) :
    P → List VM → (σ × List (P × List VM)) → (σ × List (P × List VM)) × Option GoError :=
  fun p vms st =>
    let r := f p vms st.1
    ((r.1, st.2 ++ [(p, vms)]), r.2)

/-- The fragment of the `Provider` interface exercised by
`FindActiveAccount`: `Name()` and `FindActiveAccount() (string, error)`,
the latter's behaviour recorded as its Go return pair.  The remaining
interface methods (`CleanSSH`, `ConfigSSH`, `Create`, `Delete`, `Extend`,
`Flags`, `List`) are opaque to the dispatch engine, which is polymorphic
in the provider type. -/
structure Provider where
  name : String
  findActiveAccount : String × Option GoError
deriving DecidableEq, Repr

/-- Go map assignment `m[k] = v` on the association-list model: replace
the binding of `k`, or append a new one. -/
def mapInsert (m : List (String × String)) (k v : String) : List (String × String) :=
  match m with
  | [] => [(k, v)]
  | kv :: rest => if kv.1 = k then (k, v) :: rest else kv :: mapInsert rest k v

/-- The closure passed to `ProvidersSequential` inside `FindActiveAccount`:
`providerAccounts[p.Name()], err = p.FindActiveAccount(); return`.  Both
assignments of the Go multi-assignment happen even when `err` is non-nil.
The second state component is the ghost trace of provider
`FindActiveAccount` invocations (by provider name). -/
def faaAction (p : Provider) (st : List (String × String) × List String) :
    (List (String × String) × List String) × Option GoError :=
  ((mapInsert st.1 p.name p.findActiveAccount.1, st.2 ++ [p.name]), p.findActiveAccount.2)

/-- `counts[acct]++` on the association-list model of `map[string]int`. -/
def bump (counts : List (String × Nat)) (k : String) : List (String × Nat) :=
  match counts with
  | [] => [(k, 1)]
  | kv :: rest => if kv.1 = k then (kv.1, kv.2 + 1) :: rest else kv :: bump rest k

/-- One iteration of the reduction loop of `FindActiveAccount`:
`if len(acct) > 0 { lastAccount = acct; counts[acct]++ }`. -/
def tallyStep (acc : List (String × Nat) × String) (kv : String × String) :
    List (String × Nat) × String :=
  if 0 < kv.2.length then (bump acc.1 kv.2, kv.2) else acc

/-- The reduction loop of `FindActiveAccount`: iterate the
`providerAccounts` values (canonical association-list order), counting
each distinct non-empty account and remembering the last non-empty one
(`counts` and `lastAccount`). -/
def tally (providerAccounts : List (String × String)) : List (String × Nat) × String :=
  providerAccounts.foldl tallyStep ([], "")

/-- Lexicographic order on character lists (by code point). -/
def charListLt : List Char → List Char → Bool
  | [], [] => false
  | [], _ :: _ => true
  | _ :: _, [] => false
  | a :: as, b :: bs =>
    if a.toNat < b.toNat then true
    else if b.toNat < a.toNat then false
    else charListLt as bs

/-- Go string ordering (`<` on strings): lexicographic over the UTF-8
encoding, which coincides with code-point lexicographic order. -/
def goStringLt (a b : String) : Bool := charListLt a.data b.data

/-- Insertion step for sorting an association list by key. -/
def insertByKey (kv : String × String) : List (String × String) → List (String × String)
  | [] => [kv]
  | kv2 :: rest =>
    if goStringLt kv.1 kv2.1 then kv :: kv2 :: rest else kv2 :: insertByKey kv rest

/-- Go `fmt` rendering of a `map[string]string` via the `%s` verb:
`map[k1:v1 k2:v2]` with entries sorted by key (as `fmt` prints maps). -/
def goFormatStringMap (m : List (String × String)) : String :=
  "map[" ++ String.intercalate " " ((m.foldr insertByKey []).map (fun kv => kv.1 ++ ":" ++ kv.2)) ++ "]"

instance {ε α : Type} [DecidableEq ε] [DecidableEq α] : DecidableEq (Except ε α) :=
  fun a b =>
    match a, b with
    | .ok x, .ok y =>
      if h : x = y then isTrue (by rw [h]) else isFalse (fun hc => by cases hc; exact h rfl)
    | .error x, .error y =>
      if h : x = y then isTrue (by rw [h]) else isFalse (fun hc => by cases hc; exact h rfl)
    | .ok _, .error _ => isFalse (fun hc => by cases hc)
    | .error _, .ok _ => isFalse (fun hc => by cases hc)

/-- Result of one call to the top-level `FindActiveAccount`: the Go return
value, the value of the package variable `cachedActiveAccount` after the
call, and the ghost trace of provider `FindActiveAccount` invocations the
call performed. -/
structure FindAccountResult where
  result : Except GoError String
  cachedActiveAccount : String
  providerCalls : List String
deriving DecidableEq, Repr

/-- `func FindActiveAccount() (string, error)`: memoized consensus over
the active accounts reported by all registered providers.  The registry
and the current value of the package variable `cachedActiveAccount` are
passed explicitly. -/
def FindActiveAccount (Providers : List (String × Provider)) (cachedActiveAccount : String) :
    FindAccountResult :=
  -- Memoize
  if 0 < cachedActiveAccount.length then
    ⟨.ok cachedActiveAccount, cachedActiveAccount, []⟩
  else
    -- Ask each Provider for its active account name
    let r := ProvidersSequential Providers (AllProviderNames Providers) faaAction ([], [])
    let providerAccounts := r.1.1
    let calls := r.1.2
    match r.2 with
    | some err => ⟨.error err, cachedActiveAccount, calls⟩
    | none =>
      -- Ensure that there is exactly one distinct, non-trivial value
      let t := tally providerAccounts
      match t.1.length with
      | 0 => ⟨.error (.msg "no Providers returned any active accounts"), cachedActiveAccount, calls⟩
      | 1 => ⟨.ok t.2, t.2, calls⟩
      | _ + 2 =>
        ⟨.error (.msg ("multiple active Provider accounts detected: " ++ goFormatStringMap providerAccounts)),
         cachedActiveAccount, calls⟩

/-- First occurrences of a list of strings, in order: the spec-side notion
of "the distinct values" of a collection. -/
def firstDedup (vals : List String) : List String :=
  vals.foldl (fun ks v => if v ∈ ks then ks else ks ++ [v]) []

/-- The iteration step of `FindActiveAccount`'s provider loop, as a fold
over provider names (used to characterize the loop's result). -/
def faaStep (Providers : List (String × Provider))
    (acc : List (String × String) × List String) (n : String) :
    List (String × String) × List String :=
  match lookupP Providers n with
  | some p => (mapInsert acc.1 p.name p.findActiveAccount.1, acc.2 ++ [p.name])
  | none => acc

/-- Spec-side observation: the per-provider account mapping reported when
every provider call succeeds — each registry entry paired with the account
string its provider returns. -/
def accountsOf (Providers : List (String × Provider)) : List (String × String) :=
  Providers.map (fun kv => (kv.1, kv.2.findActiveAccount.1))

/-- Spec-side observation: the distinct non-empty account strings returned
across all providers (a provider returning the empty string contributes no
vote). -/
def distinctAccounts (Providers : List (String × Provider)) : List String :=
  firstDedup (((accountsOf Providers).map Prod.snd).filter (fun a => decide (0 < a.length)))

/-! Helper lemmas. -/

theorem takeWhile_all {α : Type} (p : α → Bool) :
    ∀ (l : List α), (∀ x ∈ l, p x = true) → l.takeWhile p = l
  | [], _ => rfl
  | a :: as, h => by
    simp only [List.takeWhile_cons, h a (List.mem_cons_self a as)]
    exact congrArg (a :: ·) (takeWhile_all p as fun x hx => h x (List.mem_cons_of_mem a hx))

theorem string_length_pos_iff (s : String) : 0 < s.length ↔ s ≠ "" := by
  constructor
  · intro h he
    rw [he] at h
    simp [String.length] at h
  · intro h
    cases s with
    | mk data =>
      cases data with
      | nil => exact absurd rfl h
      | cons c cs => simp [String.length]

theorem lookupP_isSome_iff {P : Type} (m : List (String × P)) (k : String) :
    (lookupP m k).isSome = true ↔ k ∈ m.map Prod.fst := by
  induction m with
  | nil => simp [lookupP]
  | cons kv rest ih =>
    by_cases h : kv.1 = k
    · simp [lookupP, h]
    · have h2 : ¬ k = kv.1 := fun hk => h hk.symm
      rw [lookupP, if_neg h, ih]
      simp [h2]

theorem lookupP_mem {P : Type} :
    ∀ {m : List (String × P)} {k : String} {p : P}, lookupP m k = some p → (k, p) ∈ m := by
  intro m
  induction m with
  | nil => intro k p h; simp [lookupP] at h
  | cons kv rest ih =>
    intro k p h
    by_cases hk : kv.1 = k
    · simp [lookupP, hk] at h
      subst hk; subst h
      exact List.mem_cons_self _ _
    · simp [lookupP, hk] at h
      exact List.mem_cons_of_mem _ (ih h)

theorem mem_lookupP_nodup {P : Type} :
    ∀ {m : List (String × P)} {k : String} {p : P},
      (m.map Prod.fst).Nodup → (k, p) ∈ m → lookupP m k = some p := by
  intro m
  induction m with
  | nil => intro k p _ h; simp at h
  | cons kv rest ih =>
    intro k p hnd h
    rw [List.map_cons] at hnd
    rcases List.mem_cons.mp h with heq | hmem
    · rw [← heq]; simp [lookupP]
    · have hkmem : k ∈ rest.map Prod.fst := List.mem_map.mpr ⟨(k, p), hmem, rfl⟩
      have hk : kv.1 ≠ k := fun hkk => (List.nodup_cons.mp hnd).1 (hkk ▸ hkmem)
      rw [lookupP, if_neg hk]
      exact ih (List.nodup_cons.mp hnd).2 hmem

theorem addVM_keys (groups : List (String × List VM)) (v : VM) :
    (addVM groups v).map Prod.fst =
      if v.Provider ∈ groups.map Prod.fst then groups.map Prod.fst
      else groups.map Prod.fst ++ [v.Provider] := by
  induction groups with
  | nil => simp [addVM]
  | cons g rest ih =>
    by_cases h : g.1 = v.Provider
    · simp [addVM, h]
    · have h2 : ¬ v.Provider = g.1 := fun hk => h hk.symm
      by_cases hmem : v.Provider ∈ rest.map Prod.fst <;>
        simp [addVM, h, hmem, ih, h2]

theorem addVM_lookup_self (groups : List (String × List VM)) (v : VM) :
    lookupP (addVM groups v) v.Provider =
      some ((lookupP groups v.Provider).getD [] ++ [v]) := by
  induction groups with
  | nil => simp [addVM, lookupP]
  | cons g rest ih =>
    by_cases h : g.1 = v.Provider
    · simp [addVM, h, lookupP]
    · simp [addVM, h, lookupP, ih]

theorem addVM_lookup_ne (groups : List (String × List VM)) (v : VM) (n : String)
    (h : n ≠ v.Provider) : lookupP (addVM groups v) n = lookupP groups n := by
  have hvn : ¬ v.Provider = n := fun hk => h hk.symm
  induction groups with
  | nil => simp [addVM, lookupP, hvn]
  | cons g rest ih =>
    by_cases hg : g.1 = v.Provider
    · have hgn : ¬ g.1 = n := by rw [hg]; exact hvn
      simp [addVM, hg, lookupP, hgn, hvn]
    · by_cases hn : g.1 = n <;> simp [addVM, hg, lookupP, hn, ih, hvn, h]

theorem foldl_addVM_lookup_some :
    ∀ (l : List VM) (groups : List (String × List VM)) (n : String) (vs : List VM),
      lookupP groups n = some vs →
      lookupP (l.foldl addVM groups) n =
        some (vs ++ l.filter (fun v => v.Provider == n)) := by
  intro l
  induction l with
  | nil => intro groups n vs h; simpa using h
  | cons v rest ih =>
    intro groups n vs h
    by_cases hv : v.Provider = n
    · have h1 : lookupP (addVM groups v) n = some (vs ++ [v]) := by
        rw [← hv] at h ⊢
        rw [addVM_lookup_self, h]; rfl
      have h2 := ih (addVM groups v) n (vs ++ [v]) h1
      simpa [List.filter_cons, hv] using h2
    · have h1 : lookupP (addVM groups v) n = some vs := by
        rw [addVM_lookup_ne _ _ _ (fun hk => hv hk.symm), h]
      have h2 := ih (addVM groups v) n vs h1
      have hv2 : (v.Provider == n) = false := by simp [hv]
      simpa [List.filter_cons, hv2] using h2

theorem foldl_addVM_lookup_none :
    ∀ (l : List VM) (groups : List (String × List VM)) (n : String),
      lookupP groups n = none →
      lookupP (l.foldl addVM groups) n =
        if l.filter (fun v => v.Provider == n) = [] then none
        else some (l.filter (fun v => v.Provider == n)) := by
  intro l
  induction l with
  | nil => intro groups n h; simpa using h
  | cons v rest ih =>
    intro groups n h
    by_cases hv : v.Provider = n
    · have h1 : lookupP (addVM groups v) n = some [v] := by
        rw [← hv] at h ⊢
        rw [addVM_lookup_self, h]; rfl
      have h2 := foldl_addVM_lookup_some rest (addVM groups v) n [v] h1
      simp [List.filter_cons, hv, h2]
    · have h1 : lookupP (addVM groups v) n = none := by
        rw [addVM_lookup_ne _ _ _ (fun hk => hv hk.symm), h]
      have h2 := ih (addVM groups v) n h1
      have hv2 : (v.Provider == n) = false := by simp [hv]
      simpa [List.filter_cons, hv2] using h2

theorem collate_lookup (l : List VM) (n : String) :
    lookupP (collate l) n =
      if l.filter (fun v => v.Provider == n) = [] then none
      else some (l.filter (fun v => v.Provider == n)) :=
  foldl_addVM_lookup_none l [] n rfl

theorem collate_keys_nodup (l : List VM) : ((collate l).map Prod.fst).Nodup := by
  have main : ∀ (l2 : List VM) (groups : List (String × List VM)),
      (groups.map Prod.fst).Nodup → ((l2.foldl addVM groups).map Prod.fst).Nodup := by
    intro l2
    induction l2 with
    | nil => intro groups h; simpa using h
    | cons v rest ih =>
      intro groups h
      apply ih
      rw [addVM_keys]
      by_cases hmem : v.Provider ∈ groups.map Prod.fst
      · simpa [hmem] using h
      · simp [hmem, List.nodup_append, h]
  exact main l [] (by simp)

theorem collate_mem_keys (l : List VM) (n : String) :
    n ∈ (collate l).map Prod.fst ↔ n ∈ l.map VM.Provider := by
  rw [← lookupP_isSome_iff, collate_lookup]
  by_cases hf : l.filter (fun v => v.Provider == n) = []
  · rw [if_pos hf]
    constructor
    · intro hsome; simp at hsome
    · intro hmem
      exfalso
      rcases List.mem_map.mp hmem with ⟨v, hv, hvp⟩
      have hmem2 : v ∈ l.filter (fun v => v.Provider == n) :=
        List.mem_filter.mpr ⟨hv, by simp [hvp]⟩
      rw [hf] at hmem2
      simp at hmem2
  · rw [if_neg hf]
    simp only [Option.isSome_some, true_iff]
    rcases List.exists_mem_of_ne_nil _ hf with ⟨v, hv⟩
    rcases List.mem_filter.mp hv with ⟨hvl, hvn⟩
    exact List.mem_map.mpr ⟨v, hvl, by simpa using hvn⟩

theorem collate_group (l : List VM) (n : String) (vms : List VM)
    (h : (n, vms) ∈ collate l) : vms = l.filter (fun v => v.Provider == n) := by
  have hl : lookupP (collate l) n = some vms :=
    mem_lookupP_nodup (collate_keys_nodup l) h
  rw [collate_lookup] at hl
  by_cases hf : l.filter (fun v => v.Provider == n) = []
  · simp [hf] at hl
  · simp only [if_neg hf, Option.some.injEq] at hl
    exact hl.symm

theorem fanOutGroups_trace {P σ : Type} (Providers : List (String × P))
    (f : P → List VM → σ → σ × Option GoError) :
    ∀ (groups : List (String × List VM)) (s : σ) (log : List (P × List VM)),
    ((FanOutGroups Providers groups (withTrace f) (s, log)).1).2 =
      log ++ groups.filterMap (fun g => (lookupP Providers g.1).map (fun p => (p, g.2))) := by
  intro groups
  induction groups with
  | nil => intro s log; simp [FanOutGroups]
  | cons g rest ih =>
    intro s log
    cases hlook : lookupP Providers g.1 with
    | none => simp [FanOutGroups, hlook, ih]
    | some p =>
      simp only [FanOutGroups, hlook, withTrace, List.filterMap_cons, Option.map_some]
      rw [ih]
      simp

theorem fanOutGroups_err {P σ : Type} (Providers : List (String × P))
    (act : P → List VM → σ → σ × Option GoError)
    (hf : ∀ p vms s, (act p vms s).2 = none) :
    ∀ (groups : List (String × List VM)) (s : σ),
    (FanOutGroups Providers groups act s).2 =
      (groups.find? (fun g => (lookupP Providers g.1).isNone)).map
        (fun g => GoError.msg ("unknown provider name: " ++ g.1)) := by
  intro groups
  induction groups with
  | nil => intro s; simp [FanOutGroups]
  | cons g rest ih =>
    intro s
    cases hlook : lookupP Providers g.1 with
    | none => simp [FanOutGroups, hlook, firstSome, List.find?_cons, Option.isNone]
    | some p =>
      simp only [FanOutGroups, hlook, hf p g.2 s, firstSome, List.find?_cons]
      rw [ih]
      simp [Option.isNone]

theorem withTrace_err {P σ : Type} (f : P → List VM → σ → σ × Option GoError)
    (hf : ∀ p vms s, (f p vms s).2 = none) :
    ∀ (p : P) (vms : List VM) (st : σ × List (P × List VM)),
      (withTrace f p vms st).2 = none := by
  intro p vms st
  simp [withTrace, hf]

theorem find?_unknown {P : Type} (Providers : List (String × P)) (x : String)
    (hx : lookupP Providers x = none) :
    ∀ (groups : List (String × List VM)),
      x ∈ groups.map Prod.fst →
      (∀ g ∈ groups, g.1 ≠ x → (lookupP Providers g.1).isSome = true) →
      ∃ vms, groups.find? (fun g => (lookupP Providers g.1).isNone) = some (x, vms) := by
  intro groups
  induction groups with
  | nil => intro h _; simp at h
  | cons g rest ih =>
    intro hmem hreg
    by_cases hgx : g.1 = x
    · refine ⟨g.2, ?_⟩
      have hnone : lookupP Providers g.1 = none := by rw [hgx]; exact hx
      rcases g with ⟨gn, gvms⟩
      simp only at hgx
      subst hgx
      simp [List.find?_cons, hnone, Option.isNone]
    · have hsome : (lookupP Providers g.1).isSome = true :=
        hreg g (List.mem_cons_self _ _) hgx
      have hnone_false : (lookupP Providers g.1).isNone = false := by
        cases hl : lookupP Providers g.1 with
        | none => rw [hl] at hsome; simp at hsome
        | some p => simp [Option.isNone]
      have hmem2 : x ∈ rest.map Prod.fst := by
        rw [List.map_cons, List.mem_cons] at hmem
        rcases hmem with h1 | h2
        · exact absurd h1.symm hgx
        · exact h2
      rcases ih hmem2 (fun g2 hg2 => hreg g2 (List.mem_cons_of_mem _ hg2)) with ⟨vms, hfind⟩
      exact ⟨vms, by simp [List.find?_cons, hnone_false, hfind]⟩

theorem mapInsert_append (m : List (String × String)) (k v : String)
    (h : k ∉ m.map Prod.fst) : mapInsert m k v = m ++ [(k, v)] := by
  induction m with
  | nil => simp [mapInsert]
  | cons kv rest ih =>
    have hk : ¬ kv.1 = k := by
      intro hkk
      exact h (by rw [List.map_cons, hkk]; exact List.mem_cons_self _ _)
    have hrest : k ∉ rest.map Prod.fst := fun hmem => h (by simp [hmem])
    simp [mapInsert, hk, ih hrest]

theorem seq_faa (Providers : List (String × Provider)) :
    ∀ (names : List String) (m : List (String × String)) (log : List String),
      (∀ n ∈ names, ∃ p, lookupP Providers n = some p ∧ p.findActiveAccount.2 = none) →
      ProvidersSequential Providers names faaAction (m, log) =
        (names.foldl (faaStep Providers) (m, log), none) := by
  intro names
  induction names with
  | nil => intro m log _; simp [ProvidersSequential]
  | cons n rest ih =>
    intro m log h
    rcases h n (List.mem_cons_self _ _) with ⟨p, hp, he⟩
    have hstep : faaStep Providers (m, log) n =
        (mapInsert m p.name p.findActiveAccount.1, log ++ [p.name]) := by
      simp [faaStep, hp]
    simp only [ProvidersSequential, ForProvider, hp, faaAction, he, List.foldl_cons, hstep]
    exact ih _ _ (fun n2 hn2 => h n2 (List.mem_cons_of_mem _ hn2))

theorem fold_faa (Providers : List (String × Provider)) :
    ∀ (reg2 : List (String × Provider)) (m : List (String × String)) (log : List String),
      (∀ kv ∈ reg2, lookupP Providers kv.1 = some kv.2) →
      (∀ kv ∈ reg2, kv.2.name = kv.1) →
      (∀ kv ∈ reg2, kv.1 ∉ m.map Prod.fst) →
      (reg2.map Prod.fst).Nodup →
      (reg2.map Prod.fst).foldl (faaStep Providers) (m, log) =
        (m ++ reg2.map (fun kv => (kv.1, kv.2.findActiveAccount.1)),
         log ++ reg2.map Prod.fst) := by
  intro reg2
  induction reg2 with
  | nil => intro m log _ _ _ _; simp
  | cons kv rest ih =>
    intro m log hlook hname hfresh hnd
    have hstep : faaStep Providers (m, log) kv.1 =
        (m ++ [(kv.1, kv.2.findActiveAccount.1)], log ++ [kv.1]) := by
      simp only [faaStep, hlook kv (List.mem_cons_self _ _)]
      rw [hname kv (List.mem_cons_self _ _),
          mapInsert_append m kv.1 _ (hfresh kv (List.mem_cons_self _ _))]
    rw [List.map_cons, List.foldl_cons, hstep]
    rw [List.map_cons] at hnd
    have hnd2 := List.nodup_cons.mp hnd
    have hfresh2 : ∀ kv2 ∈ rest, kv2.1 ∉ (m ++ [(kv.1, kv.2.findActiveAccount.1)]).map Prod.fst := by
      intro kv2 hkv2 hmem
      rw [List.map_append] at hmem
      rcases List.mem_append.mp hmem with h1 | h1
      · exact hfresh kv2 (List.mem_cons_of_mem _ hkv2) h1
      · simp at h1
        exact hnd2.1 (h1 ▸ List.mem_map.mpr ⟨kv2, hkv2, rfl⟩)
    rw [ih _ _ (fun kv2 h2 => hlook kv2 (List.mem_cons_of_mem _ h2))
        (fun kv2 h2 => hname kv2 (List.mem_cons_of_mem _ h2)) hfresh2 hnd2.2]
    simp

theorem faa_resolution (Providers : List (String × Provider))
    (hnd : (Providers.map Prod.fst).Nodup)
    (hname : ∀ kv ∈ Providers, kv.2.name = kv.1)
    (hok : ∀ kv ∈ Providers, kv.2.findActiveAccount.2 = none) :
    ProvidersSequential Providers (AllProviderNames Providers) faaAction ([], []) =
      ((Providers.map (fun kv => (kv.1, kv.2.findActiveAccount.1)),
        Providers.map Prod.fst), none) := by
  have hres : ∀ n ∈ AllProviderNames Providers,
      ∃ p, lookupP Providers n = some p ∧ p.findActiveAccount.2 = none := by
    intro n hn
    rcases List.mem_map.mp hn with ⟨kv, hkv, hkv1⟩
    exact ⟨kv.2, by rw [← hkv1]; exact mem_lookupP_nodup hnd (by simpa using hkv),
           hok kv hkv⟩
  rw [seq_faa Providers (AllProviderNames Providers) [] [] hres]
  rw [show AllProviderNames Providers = Providers.map Prod.fst from rfl]
  rw [fold_faa Providers Providers [] []
      (fun kv hkv => mem_lookupP_nodup hnd (by simpa using hkv))
      hname (by simp) hnd]
  simp

theorem bump_keys (c : List (String × Nat)) (k : String) :
    (bump c k).map Prod.fst =
      if k ∈ c.map Prod.fst then c.map Prod.fst else c.map Prod.fst ++ [k] := by
  induction c with
  | nil => simp [bump]
  | cons kv rest ih =>
    by_cases h : kv.1 = k
    · simp [bump, h]
    · have h2 : ¬ k = kv.1 := fun hk => h hk.symm
      by_cases hmem : k ∈ rest.map Prod.fst <;> simp [bump, h, h2, hmem, ih]

theorem tally_keys_aux :
    ∀ (m : List (String × String)) (c : List (String × Nat)) (la : String),
      ((m.foldl tallyStep (c, la)).1).map Prod.fst =
        ((m.map Prod.snd).filter (fun a => decide (0 < a.length))).foldl
          (fun ks v => if v ∈ ks then ks else ks ++ [v]) (c.map Prod.fst) := by
  intro m
  induction m with
  | nil => intro c la; simp
  | cons kv rest ih =>
    intro c la
    by_cases h : 0 < kv.2.length
    · have hstep : tallyStep (c, la) kv = (bump c kv.2, kv.2) := by simp [tallyStep, h]
      rw [List.foldl_cons, hstep, ih]
      have hfil : (((kv :: rest).map Prod.snd).filter (fun a => decide (0 < a.length)))
          = kv.2 :: ((rest.map Prod.snd).filter (fun a => decide (0 < a.length))) := by
        simp [List.filter_cons, h]
      rw [hfil, List.foldl_cons, bump_keys]
    · have hstep : tallyStep (c, la) kv = (c, la) := by simp [tallyStep, h]
      rw [List.foldl_cons, hstep, ih]
      have hfil : (((kv :: rest).map Prod.snd).filter (fun a => decide (0 < a.length)))
          = (rest.map Prod.snd).filter (fun a => decide (0 < a.length)) := by
        simp [List.filter_cons, h]
      rw [hfil]

theorem tally_keys (m : List (String × String)) :
    ((tally m).1).map Prod.fst =
      firstDedup ((m.map Prod.snd).filter (fun a => decide (0 < a.length))) := by
  have h := tally_keys_aux m [] ""
  simpa [tally, firstDedup] using h

theorem mem_foldDedup :
    ∀ (vals : List String) (ks : List String) (x : String),
      x ∈ vals.foldl (fun ks v => if v ∈ ks then ks else ks ++ [v]) ks ↔
        x ∈ ks ∨ x ∈ vals := by
  intro vals
  induction vals with
  | nil => intro ks x; simp
  | cons v rest ih =>
    intro ks x
    rw [List.foldl_cons]
    by_cases h : v ∈ ks
    · rw [if_pos h, ih]
      constructor
      · rintro (h1 | h1)
        · exact Or.inl h1
        · exact Or.inr (List.mem_cons_of_mem _ h1)
      · rintro (h1 | h1)
        · exact Or.inl h1
        · rcases List.mem_cons.mp h1 with h2 | h2
          · exact Or.inl (h2 ▸ h)
          · exact Or.inr h2
    · rw [if_neg h, ih]
      simp [List.mem_append, List.mem_cons, or_assoc]

theorem firstDedup_all_eq (vals : List String) (a : String)
    (h : firstDedup vals = [a]) : (∀ v ∈ vals, v = a) ∧ vals ≠ [] := by
  constructor
  · intro v hv
    have hmem : v ∈ firstDedup vals := (mem_foldDedup vals [] v).mpr (Or.inr hv)
    rw [h] at hmem
    simpa using hmem
  · intro hnil
    rw [hnil] at h
    simp [firstDedup] at h

theorem tally_last :
    ∀ (m : List (String × String)) (c : List (String × Nat)) (la : String) (a : String),
      (∀ v ∈ (m.map Prod.snd).filter (fun x => decide (0 < x.length)), v = a) →
      ((m.map Prod.snd).filter (fun x => decide (0 < x.length)) ≠ [] ∨ la = a) →
      (m.foldl tallyStep (c, la)).2 = a := by
  intro m
  induction m with
  | nil =>
    intro c la a _ hne
    rcases hne with h | h
    · simp at h
    · simpa using h
  | cons kv rest ih =>
    intro c la a hall hne
    by_cases h : 0 < kv.2.length
    · have hstep : tallyStep (c, la) kv = (bump c kv.2, kv.2) := by simp [tallyStep, h]
      have hkv : kv.2 = a := by
        apply hall
        simp [List.filter_cons, h]
      rw [List.foldl_cons, hstep]
      apply ih _ _ a
      · intro v hv
        apply hall
        simp [List.filter_cons, h]
        right
        simpa using hv
      · exact Or.inr hkv
    · have hstep : tallyStep (c, la) kv = (c, la) := by simp [tallyStep, h]
      have hfil : (((kv :: rest).map Prod.snd).filter (fun x => decide (0 < x.length)))
          = (rest.map Prod.snd).filter (fun x => decide (0 < x.length)) := by
        simp [List.filter_cons, h]
      rw [List.foldl_cons, hstep]
      apply ih _ _ a
      · intro v hv
        apply hall
        rw [hfil]
        exact hv
      · rcases hne with h1 | h1
        · rw [hfil] at h1
          exact Or.inl h1
        · exact Or.inr h1

theorem tally_pos :
    ∀ (m : List (String × String)) (c : List (String × Nat)) (la : String),
      (c ≠ [] → 0 < la.length) →
      ((m.foldl tallyStep (c, la)).1 ≠ [] → 0 < (m.foldl tallyStep (c, la)).2.length) := by
  intro m
  induction m with
  | nil => intro c la hinv; simpa using hinv
  | cons kv rest ih =>
    intro c la hinv
    by_cases h : 0 < kv.2.length
    · have hstep : tallyStep (c, la) kv = (bump c kv.2, kv.2) := by simp [tallyStep, h]
      rw [List.foldl_cons, hstep]
      exact ih _ _ (fun _ => h)
    · have hstep : tallyStep (c, la) kv = (c, la) := by simp [tallyStep, h]
      rw [List.foldl_cons, hstep]
      exact ih _ _ hinv

theorem findActiveAccount_eq (Providers : List (String × Provider))
    (accs : List (String × String)) (calls : List String)
    (hres : ProvidersSequential Providers (AllProviderNames Providers) faaAction ([], []) =
      ((accs, calls), none)) :
    FindActiveAccount Providers "" =
      match (tally accs).1.length with
      | 0 => ⟨.error (.msg "no Providers returned any active accounts"), "", calls⟩
      | 1 => ⟨.ok (tally accs).2, (tally accs).2, calls⟩
      | _ + 2 =>
        ⟨.error (.msg ("multiple active Provider accounts detected: " ++ goFormatStringMap accs)),
         "", calls⟩ := by
  rw [FindActiveAccount, if_neg (by decide), hres]

/-! Claim theorems. -/

/-- C6: `ForProvider(named, action)` returns the error
`unknown vm provider: <named>` when `named` is not a key of the registry
(the action is never invoked — the result is the same for every action and
leaves the state untouched); when `named` is registered it invokes the
action on the resolved provider, and if the action errors it returns that
error wrapped with context identifying the provider name, preserving the
original error as the cause; when the action succeeds it returns nil. -/
theorem forProvider_resolution {P σ : Type} (Providers : List (String × P)) (named : String)
    (action : P → σ → σ × Option GoError) (s : σ) :
    (lookupP Providers named = none →
      ForProvider Providers named action s =
        (s, some (.msg ("unknown vm provider: " ++ named)))) ∧
    (∀ p s2 e, lookupP Providers named = some p → action p s = (s2, some e) →
      ForProvider Providers named action s =
        (s2, some (.wrap e ("in provider: " ++ named)))) ∧
    (∀ p s2, lookupP Providers named = some p → action p s = (s2, none) →
      ForProvider Providers named action s = (s2, none)) := by
  refine ⟨fun h => ?_, fun p s2 e h1 h2 => ?_, fun p s2 h1 h2 => ?_⟩ <;>
    simp [ForProvider, *]

theorem forProvider_resolution_witness :
    (ForProvider ([("aws", 7)] : List (String × Nat)) "gcp"
        (fun p s => (s + p, none)) (0 : Nat) =
      (0, some (.msg "unknown vm provider: gcp"))) ∧
    (ForProvider ([("aws", 7)] : List (String × Nat)) "aws"
        (fun p s => (s + p, some (.msg "boom"))) (0 : Nat) =
      (7, some (.wrap (.msg "boom") "in provider: aws"))) ∧
    (ForProvider ([("aws", 7)] : List (String × Nat)) "aws"
        (fun p s => (s + p, none)) (0 : Nat) = (7, none)) :=
  ⟨(forProvider_resolution [("aws", 7)] "gcp" (fun p s => (s + p, none)) 0).1 (by decide),
   (forProvider_resolution [("aws", 7)] "aws" (fun p s => (s + p, some (.msg "boom"))) 0).2.1
     7 7 (.msg "boom") (by decide) rfl,
   (forProvider_resolution [("aws", 7)] "aws" (fun p s => (s + p, none)) 0).2.2
     7 7 (by decide) rfl⟩

/-- C4: over the name sequence `[a, b, c]`, when `a`'s action succeeds and
`b`'s action errors, `ProvidersSequential` invokes the action for `a` and
then for `b` (the final state is `b`'s post-state `s2`) and returns `b`'s
error wrapped with `b`'s provider-name context; the result does not depend
on the action's behaviour on `c`'s provider (the action for `c` is never
invoked), since `action` and `c` are arbitrary here. -/
theorem providersSequential_failFast {P σ : Type} (Providers : List (String × P))
    (a b c : String) (pa pb : P) (action : P → σ → σ × Option GoError)
    (s s1 s2 : σ) (e : GoError)
    (ha : lookupP Providers a = some pa) (hb : lookupP Providers b = some pb)
    (h1 : action pa s = (s1, none)) (h2 : action pb s1 = (s2, some e)) :
    ProvidersSequential Providers [a, b, c] action s =
      (s2, some (.wrap e ("in provider: " ++ b))) := by
  simp [ProvidersSequential, ForProvider, ha, hb, h1, h2]

theorem providersSequential_failFast_witness :
    ProvidersSequential
        [("A", "pa"), ("B", "pb"), ("C", "pc")] ["A", "B", "C"]
        (fun p log => (log ++ [p], if p = "pb" then some (.msg "boom") else none))
        ([] : List String) =
      (["pa", "pb"], some (.wrap (.msg "boom") "in provider: B")) :=
  providersSequential_failFast [("A", "pa"), ("B", "pb"), ("C", "pc")]
    "A" "B" "C" "pa" "pb"
    (fun p log => (log ++ [p], if p = "pb" then some (.msg "boom") else none))
    [] ["pa"] ["pa", "pb"] (.msg "boom") (by decide) (by decide) (by decide) (by decide)

/-- C7: over the name sequence `[a, b, c]` where only `b`'s action errors,
`ProvidersParallel` invokes the action once for each of `a`, `b` and `c`
(the final state is `c`'s post-state `s3`, threaded through all three
invocations) and the returned error is `b`'s error wrapped with `b`'s
provider-name context — first-error-wins aggregation, as in `FanOut`. -/
theorem providersParallel_no_shortcircuit {P σ : Type} (Providers : List (String × P))
    (a b c : String) (pa pb pc : P) (action : P → σ → σ × Option GoError)
    (s s1 s2 s3 : σ) (e : GoError)
    (ha : lookupP Providers a = some pa) (hb : lookupP Providers b = some pb)
    (hc : lookupP Providers c = some pc)
    (h1 : action pa s = (s1, none)) (h2 : action pb s1 = (s2, some e))
    (h3 : action pc s2 = (s3, none)) :
    ProvidersParallel Providers [a, b, c] action s =
      (s3, some (.wrap e ("in provider: " ++ b))) := by
  simp [ProvidersParallel, ForProvider, firstSome, ha, hb, hc, h1, h2, h3]

theorem providersParallel_no_shortcircuit_witness :
    ProvidersParallel
        [("A", "pa"), ("B", "pb"), ("C", "pc")] ["A", "B", "C"]
        (fun p log => (log ++ [p], if p = "pb" then some (.msg "boom") else none))
        ([] : List String) =
      (["pa", "pb", "pc"], some (.wrap (.msg "boom") "in provider: B")) :=
  providersParallel_no_shortcircuit [("A", "pa"), ("B", "pb"), ("C", "pc")]
    "A" "B" "C" "pa" "pb" "pc"
    (fun p log => (log ++ [p], if p = "pb" then some (.msg "boom") else none))
    [] ["pa"] ["pa", "pb"] ["pa", "pb", "pc"] (.msg "boom")
    (by decide) (by decide) (by decide) (by decide) (by decide) (by decide)

theorem locality_eq_of_zone (v : VM) (z : String) (h : v.Zone = z) :
    v.Locality =
      ({ Name := "", CreatedAt := 0, Errors := [], Lifetime := 0, DNS := "",
         Provider := "", PrivateIP := "", PublicIP := "", Zone := z } : VM).Locality := by
  simp [VM.Locality, VM.IsLocal, h]

/-- C8: `Locality()` on a VM with zone `us-east1-b` returns
`region=us-east1,zone=us-east1-b` (the region is the zone with the
trailing single-letter suffix and its separator stripped), and on a VM
whose zone equals the local sentinel (`config.Local`) it returns
`region=Z,zone=Z` with `Z` the sentinel zone verbatim; in both cases the
result is `some _`, i.e. the fatal branch is not reached. -/
theorem locality_examples (v : VM) :
    (v.Zone = "us-east1-b" → v.Locality = some "region=us-east1,zone=us-east1-b") ∧
    (v.Zone = config.Local →
      v.Locality = some ("region=" ++ config.Local ++ ",zone=" ++ config.Local)) := by
  constructor
  · intro h
    rw [locality_eq_of_zone v _ h]
    decide
  · intro h
    rw [locality_eq_of_zone v _ h]
    decide

theorem locality_examples_witness :
    ({ Name := "n1", CreatedAt := 0, Errors := [], Lifetime := 0, DNS := "",
       Provider := "gcp", PrivateIP := "", PublicIP := "",
       Zone := "us-east1-b" } : VM).Locality = some "region=us-east1,zone=us-east1-b" ∧
    ({ Name := "n2", CreatedAt := 0, Errors := [], Lifetime := 0, DNS := "",
       Provider := "local", PrivateIP := "", PublicIP := "",
       Zone := config.Local } : VM).Locality =
      some ("region=" ++ config.Local ++ ",zone=" ++ config.Local) :=
  ⟨(locality_examples _).1 rfl, (locality_examples _).2 rfl⟩

/-- C10, counterexample: the VM with zone `"a\nbb"` satisfies the claim's
hypotheses — it is non-local and its zone ends in the lowercase letter `b`
immediately preceded by the non-hyphen character `b` — and the fatal
branch is indeed not reached, but the returned region is `"b"`, not the
zone with only the final letter stripped (`"a\nb"`): `.` in Go's regexp
does not match a newline, so the leftmost match starts after the
newline. -/
theorem locality_no_separator_counterexample :
    (let v : VM := { Name := "", CreatedAt := 0, Errors := [], Lifetime := 0, DNS := "",
                     Provider := "", PrivateIP := "", PublicIP := "", Zone := "a\nbb" };
     v.IsLocal = false ∧
     isLowerAscii 'b' = true ∧ ('b' = '-' → False) ∧
     v.Zone.data = ['a', '\n', 'b'] ++ ['b'] ∧
     v.Locality = some "region=b,zone=a\nbb" ∧
     ¬ v.Locality = some ("region=" ++ "a\nb" ++ ",zone=" ++ "a\nbb")) := by
  decide

/-- C10 (amended): for every non-local VM whose zone decomposes as
`w ++ [c, l0]` with `l0` a lowercase ASCII letter, `c` not a hyphen —
i.e. no separator before the final letter — and **no newline character
among the characters `w` before the penultimate one**, `Locality()` does
not reach the fatal branch and the returned region is the zone with only
the final letter stripped, because the separator in `regionRE` is
optional. -/
theorem locality_no_separator_amended (v : VM) (w : List Char) (c l0 : Char)
    (hz : v.Zone = String.mk (w ++ [c, l0]))
    (hnl : v.Zone ≠ config.Local)
    (hl : isLowerAscii l0 = true) (hc : c ≠ '-')
    (hw : ∀ x ∈ w, x ≠ '\n') :
    v.Locality = some ("region=" ++ String.mk (w ++ [c]) ++ ",zone=" ++ v.Zone) := by
  have hlocal : v.IsLocal = false := by
    simp only [VM.IsLocal]
    exact beq_eq_false_iff_ne.mpr hnl
  have hrev : v.Zone.data.reverse = l0 :: c :: w.reverse := by
    rw [hz]
    simp
  have htake : (w.reverse).takeWhile (fun x => x ≠ '\n') = w.reverse := by
    apply takeWhile_all
    intro x hx
    simp only [decide_eq_true_eq, ne_eq]
    exact hw x (List.mem_reverse.mp hx)
  have hfind : regionREFind v.Zone = some (String.mk (w ++ [c])) := by
    rw [regionREFind, hrev]
    show ((if isLowerAscii l0 = true then
        if c = '-' then
          match w.reverse with
          | [] => none
          | c2 :: w2 =>
            if c2 = '-' then none
            else some (c2 :: w2.takeWhile (fun x => x ≠ '\n'))
        else some (c :: (w.reverse).takeWhile (fun x => x ≠ '\n'))
      else none).map (fun g => String.mk g.reverse)) = some (String.mk (w ++ [c]))
    rw [if_pos hl, if_neg hc, htake]
    simp
  rw [VM.Locality, hlocal]
  simp only [Bool.false_eq_true, if_false, hfind]

theorem locality_no_separator_amended_witness :
    (∀ x ∈ ['u', 's', 'e', 'a', 's', 't'], x ≠ '\n') ∧
    ({ Name := "", CreatedAt := 0, Errors := [], Lifetime := 0, DNS := "",
       Provider := "", PrivateIP := "", PublicIP := "",
       Zone := "useast1b" } : VM).Locality =
      some ("region=" ++ String.mk (['u', 's', 'e', 'a', 's', 't'] ++ ['1']) ++
            ",zone=" ++ ({ Name := "", CreatedAt := 0, Errors := [], Lifetime := 0,
                           DNS := "", Provider := "", PrivateIP := "", PublicIP := "",
                           Zone := "useast1b" } : VM).Zone) :=
  ⟨by decide,
   locality_no_separator_amended _ ['u', 's', 'e', 'a', 's', 't'] '1' 'b'
     (by decide) (by decide) (by decide) (by decide) (by decide)⟩

/-- C1: `FanOut` partitions its input into per-provider sub-lists keyed by
each VM's `Provider` field.  For every input the partition `collate list`
has pairwise-distinct keys, its keys are exactly the provider names
occurring in the input (regardless of interleaving order), and each group
is the order-preserving filter of the input by its provider name.  When
every provider in the input is registered, every group resolves in the
registry, and the instrumented run shows the action is invoked exactly
once per group — in partition order, each invocation receiving the
provider resolved from the registry and exactly that provider's
sub-list. -/
theorem fanOut_partitions_and_invokes {P σ : Type} (Providers : List (String × P))
    (list : List VM) (action : P → List VM → σ → σ × Option GoError) (s : σ)
    (hreg : ∀ v ∈ list, (lookupP Providers v.Provider).isSome = true) :
    ((collate list).map Prod.fst).Nodup ∧
    (∀ n, n ∈ (collate list).map Prod.fst ↔ n ∈ list.map VM.Provider) ∧
    (∀ g ∈ collate list, g.2 = list.filter (fun v => v.Provider == g.1)) ∧
    (∀ g ∈ collate list, ∃ p, lookupP Providers g.1 = some p) ∧
    ((FanOut Providers list (withTrace action) (s, [])).1.2 =
      (collate list).filterMap
        (fun g => (lookupP Providers g.1).map (fun p => (p, g.2)))) := by
  refine ⟨collate_keys_nodup list, fun n => collate_mem_keys list n,
    fun g hg => collate_group list g.1 g.2 hg, fun g hg => ?_, ?_⟩
  · have hk : g.1 ∈ (collate list).map Prod.fst := List.mem_map.mpr ⟨g, hg, rfl⟩
    have hp : g.1 ∈ list.map VM.Provider := (collate_mem_keys list g.1).mp hk
    rcases List.mem_map.mp hp with ⟨v, hv, hvp⟩
    have := hreg v hv
    rw [hvp] at this
    rcases Option.isSome_iff_exists.mp this with ⟨p, hpeq⟩
    exact ⟨p, hpeq⟩
  · rw [FanOut, fanOutGroups_trace]
    simp

theorem fanOut_partitions_and_invokes_witness :
    (∀ v ∈ [vmOf "a1" "aws" "z1", vmOf "g1" "gcp" "z2", vmOf "a2" "aws" "z3"],
      (lookupP [("aws", "AWS"), ("gcp", "GCP")] v.Provider).isSome = true) ∧
    (FanOut [("aws", "AWS"), ("gcp", "GCP")]
        [vmOf "a1" "aws" "z1", vmOf "g1" "gcp" "z2", vmOf "a2" "aws" "z3"]
        (withTrace (fun _ _ (s : Nat) => (s + 1, none))) (0, [])).1.2 =
      [("AWS", [vmOf "a1" "aws" "z1", vmOf "a2" "aws" "z3"]),
       ("GCP", [vmOf "g1" "gcp" "z2"])] :=
  ⟨by decide,
   ((fanOut_partitions_and_invokes [("aws", "AWS"), ("gcp", "GCP")]
       [vmOf "a1" "aws" "z1", vmOf "g1" "gcp" "z2", vmOf "a2" "aws" "z3"]
       (fun _ _ (s : Nat) => (s + 1, none)) 0 (by decide)).2.2.2.2).trans (by decide)⟩

/-- C5: when the input contains at least one VM whose provider name `x` is
not in the registry while every other provider name in the input is
registered, and the action itself never errors, `FanOut` returns the
`unknown provider name: x` error for the unknown group while every
registered group still has its action invoked with its own sub-list (the
instrumented trace contains one invocation per registered group): one bad
group does not abort the sibling groups. -/
theorem fanOut_unknown_provider {P σ : Type} (Providers : List (String × P))
    (list : List VM) (action : P → List VM → σ → σ × Option GoError) (s : σ) (x : String)
    (hx : x ∈ list.map VM.Provider)
    (hnone : lookupP Providers x = none)
    (hothers : ∀ n ∈ list.map VM.Provider, n ≠ x → (lookupP Providers n).isSome = true)
    (hact : ∀ p vms s2, (action p vms s2).2 = none) :
    ((FanOut Providers list (withTrace action) (s, [])).2 =
      some (.msg ("unknown provider name: " ++ x))) ∧
    (∀ n ∈ list.map VM.Provider, n ≠ x →
      ∃ p, lookupP Providers n = some p ∧
        (p, list.filter (fun v => v.Provider == n)) ∈
          (FanOut Providers list (withTrace action) (s, [])).1.2) := by
  constructor
  · rw [FanOut, fanOutGroups_err Providers (withTrace action) (withTrace_err action hact)]
    have hmem : x ∈ (collate list).map Prod.fst := (collate_mem_keys list x).mpr hx
    have hreg : ∀ g ∈ collate list, g.1 ≠ x → (lookupP Providers g.1).isSome = true := by
      intro g hg hgx
      exact hothers g.1 ((collate_mem_keys list g.1).mp (List.mem_map.mpr ⟨g, hg, rfl⟩)) hgx
    rcases find?_unknown Providers x hnone (collate list) hmem hreg with ⟨vms, hfind⟩
    rw [hfind]
    rfl
  · intro n hn hnx
    have hsome := hothers n hn hnx
    rcases Option.isSome_iff_exists.mp hsome with ⟨p, hpeq⟩
    refine ⟨p, hpeq, ?_⟩
    rw [FanOut, fanOutGroups_trace]
    have hfil : list.filter (fun v => v.Provider == n) ≠ [] := by
      rcases List.mem_map.mp hn with ⟨v, hv, hvp⟩
      intro hnil
      have : v ∈ list.filter (fun v => v.Provider == n) :=
        List.mem_filter.mpr ⟨hv, by simp [hvp]⟩
      rw [hnil] at this
      simp at this
    have hgrp : (n, list.filter (fun v => v.Provider == n)) ∈ collate list := by
      apply lookupP_mem
      rw [collate_lookup, if_neg hfil]
    simp only [List.nil_append]
    exact List.mem_filterMap.mpr
      ⟨(n, list.filter (fun v => v.Provider == n)), hgrp, by rw [hpeq]; rfl⟩

theorem fanOut_unknown_provider_witness :
    ((FanOut [("aws", "AWS"), ("gcp", "GCP")]
        [vmOf "a1" "aws" "z1", vmOf "x1" "azure" "z2", vmOf "g1" "gcp" "z3"]
        (withTrace (fun _ _ (s : Nat) => (s + 1, none))) (0, [])).2 =
      some (.msg ("unknown provider name: " ++ "azure"))) ∧
    (∃ p, lookupP [("aws", "AWS"), ("gcp", "GCP")] "gcp" = some p ∧
      (p, [vmOf "a1" "aws" "z1", vmOf "x1" "azure" "z2",
           vmOf "g1" "gcp" "z3"].filter (fun v => v.Provider == "gcp")) ∈
        (FanOut [("aws", "AWS"), ("gcp", "GCP")]
          [vmOf "a1" "aws" "z1", vmOf "x1" "azure" "z2", vmOf "g1" "gcp" "z3"]
          (withTrace (fun _ _ (s : Nat) => (s + 1, none))) (0, [])).1.2) :=
  ⟨(fanOut_unknown_provider [("aws", "AWS"), ("gcp", "GCP")]
      [vmOf "a1" "aws" "z1", vmOf "x1" "azure" "z2", vmOf "g1" "gcp" "z3"]
      (fun _ _ (s : Nat) => (s + 1, none)) 0 "azure"
      (by decide) (by decide) (by decide) (fun _ _ _ => rfl)).1,
   (fanOut_unknown_provider [("aws", "AWS"), ("gcp", "GCP")]
      [vmOf "a1" "aws" "z1", vmOf "x1" "azure" "z2", vmOf "g1" "gcp" "z3"]
      (fun _ _ (s : Nat) => (s + 1, none)) 0 "azure"
      (by decide) (by decide) (by decide) (fun _ _ _ => rfl)).2
     "gcp" (by decide) (by decide)⟩

/-- C2: when every registered provider's `FindActiveAccount` call
succeeds (registry keys are distinct and each provider's `Name()` is its
registry key, as the `Provider` contract requires), the top-level
`FindActiveAccount` counts the distinct non-empty account strings
returned: zero distinct non-empty values fail with
`no Providers returned any active accounts`; exactly one distinct
non-empty value is returned as the consensus account; two or more
distinct non-empty values fail with a
`multiple active Provider accounts detected` error carrying the formatted
per-provider mapping. -/
theorem findActiveAccount_consensus (Providers : List (String × Provider))
    (hnd : (Providers.map Prod.fst).Nodup)
    (hname : ∀ kv ∈ Providers, kv.2.name = kv.1)
    (hok : ∀ kv ∈ Providers, kv.2.findActiveAccount.2 = none) :
    (distinctAccounts Providers = [] →
      (FindActiveAccount Providers "").result =
        .error (.msg "no Providers returned any active accounts")) ∧
    (∀ a, distinctAccounts Providers = [a] →
      (FindActiveAccount Providers "").result = .ok a) ∧
    (2 ≤ (distinctAccounts Providers).length →
      (FindActiveAccount Providers "").result =
        .error (.msg ("multiple active Provider accounts detected: " ++
          goFormatStringMap (accountsOf Providers)))) := by
  have hres := faa_resolution Providers hnd hname hok
  have heq := findActiveAccount_eq Providers (accountsOf Providers)
    (Providers.map Prod.fst) hres
  have hkeys : ((tally (accountsOf Providers)).1).map Prod.fst = distinctAccounts Providers :=
    tally_keys (accountsOf Providers)
  have hlen : (tally (accountsOf Providers)).1.length = (distinctAccounts Providers).length := by
    rw [← hkeys, List.length_map]
  refine ⟨?_, ?_, ?_⟩
  · intro h0
    have hz : (tally (accountsOf Providers)).1.length = 0 := by rw [hlen, h0]; rfl
    rw [heq, hz]
  · intro a ha
    have h1 : (tally (accountsOf Providers)).1.length = 1 := by rw [hlen, ha]; rfl
    have hall := firstDedup_all_eq _ a ha
    have hfne : (((accountsOf Providers).map Prod.snd).filter
        (fun x => decide (0 < x.length))) ≠ [] := by
      intro hnil
      rw [distinctAccounts, hnil] at ha
      simp [firstDedup] at ha
    have hlast : (tally (accountsOf Providers)).2 = a :=
      tally_last (accountsOf Providers) [] "" a hall.1 (Or.inl hfne)
    rw [heq, h1]
    exact congrArg Except.ok hlast
  · intro h2
    obtain ⟨k, hk⟩ : ∃ k, (tally (accountsOf Providers)).1.length = k + 2 :=
      ⟨(distinctAccounts Providers).length - 2, by rw [hlen]; omega⟩
    rw [heq, hk]

theorem findActiveAccount_consensus_witness :
    distinctAccounts
        [("aws", ⟨"aws", ("acct1", none)⟩), ("gcp", ⟨"gcp", ("acct1", none)⟩)] = ["acct1"] ∧
    (FindActiveAccount
        [("aws", ⟨"aws", ("acct1", none)⟩), ("gcp", ⟨"gcp", ("acct1", none)⟩)] "").result =
      .ok "acct1" :=
  ⟨by decide,
   (findActiveAccount_consensus
      [("aws", ⟨"aws", ("acct1", none)⟩), ("gcp", ⟨"gcp", ("acct1", none)⟩)]
      (by decide) (by decide) (by decide)).2.1 "acct1" (by decide)⟩

/-- C3: after a call to `FindActiveAccount` that returned a successful
consensus `a`, calling it again on the resulting cache returns the same
account with the cache unchanged and performs zero provider
`FindActiveAccount` calls (empty call trace): the memoized cache is
consulted first and, being non-empty, returned immediately. -/
theorem findActiveAccount_memoized (Providers : List (String × Provider)) (cache a : String)
    (h : (FindActiveAccount Providers cache).result = .ok a) :
    FindActiveAccount Providers ((FindActiveAccount Providers cache).cachedActiveAccount) =
      ⟨.ok a, (FindActiveAccount Providers cache).cachedActiveAccount, []⟩ := by
  by_cases hc : 0 < cache.length
  · have h1 : FindActiveAccount Providers cache = ⟨.ok cache, cache, []⟩ := by
      rw [FindActiveAccount, if_pos hc]
    have h2 : cache = a := by
      rw [h1] at h
      simpa using h
    subst h2
    rw [h1]
    exact h1
  · have hcache : cache = "" := by
      by_contra hne
      exact hc ((string_length_pos_iff cache).mpr hne)
    subst hcache
    rcases hr : ProvidersSequential Providers (AllProviderNames Providers) faaAction ([], [])
      with ⟨⟨accs, calls⟩, err⟩
    cases err with
    | some e =>
      have h1 : FindActiveAccount Providers "" = ⟨.error e, "", calls⟩ := by
        rw [FindActiveAccount, if_neg (by decide), hr]
      rw [h1] at h
      simp at h
    | none =>
      have heq := findActiveAccount_eq Providers accs calls hr
      rcases hn : (tally accs).1.length with _ | n
      · rw [heq, hn] at h
        simp at h
      · cases n with
        | zero =>
          have ha : (tally accs).2 = a := by
            rw [heq, hn] at h
            simpa using h
          have hpos : 0 < (tally accs).2.length := by
            apply tally_pos accs [] "" (fun hx => absurd rfl hx)
            intro hnil
            rw [tally] at hn
            rw [hnil] at hn
            simp at hn
          rw [heq, hn]
          show FindActiveAccount Providers (tally accs).2 = ⟨.ok a, (tally accs).2, []⟩
          rw [FindActiveAccount, if_pos hpos, ha]
        | succ m =>
          rw [heq, hn] at h
          simp at h

theorem findActiveAccount_memoized_witness :
    FindActiveAccount
        [("aws", ⟨"aws", ("acct1", none)⟩), ("gcp", ⟨"gcp", ("acct1", none)⟩)]
        ((FindActiveAccount
          [("aws", ⟨"aws", ("acct1", none)⟩), ("gcp", ⟨"gcp", ("acct1", none)⟩)]
          "").cachedActiveAccount) =
      ⟨.ok "acct1",
       (FindActiveAccount
          [("aws", ⟨"aws", ("acct1", none)⟩), ("gcp", ⟨"gcp", ("acct1", none)⟩)]
          "").cachedActiveAccount, []⟩ :=
  findActiveAccount_memoized
    [("aws", ⟨"aws", ("acct1", none)⟩), ("gcp", ⟨"gcp", ("acct1", none)⟩)]
    "" "acct1" (by decide)

/-- C9: the active-account cache is written only upon a successful
consensus resolution and never invalidated: whenever `FindActiveAccount`
returns an error the cache is left unchanged; whenever the cache is
already non-empty it is left unchanged (so a stored consensus is never
overwritten); and whenever the call does change the cache, the previous
cache was empty and the call returned exactly the newly stored value. -/
theorem cachedActiveAccount_write_once (Providers : List (String × Provider)) (cache : String) :
    (∀ e, (FindActiveAccount Providers cache).result = .error e →
      (FindActiveAccount Providers cache).cachedActiveAccount = cache) ∧
    (cache ≠ "" → (FindActiveAccount Providers cache).cachedActiveAccount = cache) ∧
    ((FindActiveAccount Providers cache).cachedActiveAccount ≠ cache →
      cache = "" ∧ (FindActiveAccount Providers cache).result =
        .ok (FindActiveAccount Providers cache).cachedActiveAccount) := by
  by_cases hc : 0 < cache.length
  · have h1 : FindActiveAccount Providers cache = ⟨.ok cache, cache, []⟩ := by
      rw [FindActiveAccount, if_pos hc]
    rw [h1]
    exact ⟨fun e he => by simp at he, fun _ => rfl, fun hne => absurd rfl hne⟩
  · have hcache : cache = "" := by
      by_contra hne
      exact hc ((string_length_pos_iff cache).mpr hne)
    subst hcache
    rcases hr : ProvidersSequential Providers (AllProviderNames Providers) faaAction ([], [])
      with ⟨⟨accs, calls⟩, err⟩
    cases err with
    | some e =>
      have h1 : FindActiveAccount Providers "" = ⟨.error e, "", calls⟩ := by
        rw [FindActiveAccount, if_neg (by decide), hr]
      rw [h1]
      exact ⟨fun _ _ => rfl, fun h => absurd rfl h, fun hne => absurd rfl hne⟩
    | none =>
      have heq := findActiveAccount_eq Providers accs calls hr
      rw [heq]
      rcases hn : (tally accs).1.length with _ | n
      · exact ⟨fun _ _ => rfl, fun h => absurd rfl h, fun hne => absurd rfl hne⟩
      · cases n with
        | zero =>
          exact ⟨fun e he => by simp at he, fun h => absurd rfl h, fun _ => ⟨rfl, rfl⟩⟩
        | succ m =>
          exact ⟨fun _ _ => rfl, fun h => absurd rfl h, fun hne => absurd rfl hne⟩

theorem cachedActiveAccount_write_once_witness :
    ((FindActiveAccount
        [("aws", ⟨"aws", ("acct1", none)⟩), ("gcp", ⟨"gcp", ("acct2", none)⟩)]
        "").cachedActiveAccount = "") ∧
    ((FindActiveAccount
        [("aws", ⟨"aws", ("acct1", none)⟩), ("gcp", ⟨"gcp", ("acct2", none)⟩)]
        "stored").cachedActiveAccount = "stored") :=
  ⟨(cachedActiveAccount_write_once
      [("aws", ⟨"aws", ("acct1", none)⟩), ("gcp", ⟨"gcp", ("acct2", none)⟩)] "").1
     (.msg "multiple active Provider accounts detected: map[aws:acct1 gcp:acct2]")
     (by decide),
   (cachedActiveAccount_write_once
      [("aws", ⟨"aws", ("acct1", none)⟩), ("gcp", ⟨"gcp", ("acct2", none)⟩)] "stored").2.1
     (by decide)⟩

end Vm

